import Mathlib

/-!
Shallow embedding of the `simplelb` load balancer (`src/main.go`, the
version built around `httputil.ReverseProxy`: `Backend`, `ServerPool`,
`NextIndex`, `MarkBackendStatus`, `GetNextPeer`, `GetAttemptsFromContext`,
`lb`, `isAlive`, `HealthCheck`, `main`).

Modelling conventions:
* `url.URL` is abstracted to the string `URL.String()` returns; the code
  only ever compares URLs via `String()` and hands them to the dialer.
* `current` is the `int32` rotation cursor, modelled as `Int`; Go's `%`
  on integers is truncated division, i.e. `Int.tmod`.  (The `int32`
  width never matters: all values stored are in `[0, len(backends))`,
  far below `2^31`.)
* The network is an oracle: `isAlive`'s dial outcome is a function
  `probe : String → Bool`, and transport failures of forwarded requests
  are a function `fail : Nat → Bool` of the global forward count.
* Go's mutation of the pool becomes explicit state passing: each
  operation returns the new `ServerPool`.
-/

/-- Source `type Backend struct { URL *url.URL; Alive bool; ReverseProxy ... }`.
The reverse proxy itself carries no pool-relevant state (its error handler
is modelled inside `lbGo`), so only `URL` and `Alive` are kept. -/
structure Backend where
  url : String
  alive : Bool
deriving Repr, DecidableEq

/-- Source `type ServerPool struct { backends []*Backend; mux ...; current int32 }`.
The mutex only serialises access; sequential state passing models it. -/
structure ServerPool where
  backends : List Backend
  current : Int
deriving Repr, DecidableEq

/-- Source `func (s *ServerPool) NextIndex() int`:
if the pool is empty it returns 0 without touching `current`; otherwise it
stores `(current+1) % len(backends)` and returns the stored value. -/
def ServerPool.NextIndex (s : ServerPool) : Int × ServerPool :=
  if s.backends.length = 0 then
    (0, s)
  else
    let c := Int.tmod (s.current + 1) (s.backends.length : Int)
    (c, { s with current := c })

/-- The loop body of `MarkBackendStatus`: walk the backend slice, and at the
first element whose URL string equals `addr` AND whose `Alive` flag differs
from `alive`, update the flag and `break`; elements failing the combined
condition are passed over. -/
def markLoop (addr : String) (alive : Bool) : List Backend → List Backend
  | [] => []
  | b :: rest =>
    if b.url = addr ∧ b.alive ≠ alive then
      { b with alive := alive } :: rest
    else
      b :: markLoop addr alive rest

/-- Source `func (s *ServerPool) MarkBackendStatus(backendUrl *url.URL, alive bool)`. -/
def ServerPool.MarkBackendStatus (s : ServerPool) (addr : String) (alive : Bool) :
    ServerPool :=
  { s with backends := markLoop addr alive s.backends }

/-- The scan loop of `GetNextPeer`: `for i := next; i < len(backends)+next; i++`
visits `idx := i % len(backends)` and stops at the first index whose backend
is alive.  `start` plays the role of `i`; the fuel counts the remaining
iterations, `len(backends)` at the top call. -/
def findAliveIdx (l : List Backend) : Nat → Nat → Option Nat
  | _, 0 => none
  | start, fuel + 1 =>
    let idx := start % l.length
    if (l[idx]?.map Backend.alive).getD false then
      some idx
    else
      findAliveIdx l (start + 1) fuel

/-- Source `func (s *ServerPool) GetNextPeer() *Backend`:
takes `next := s.NextIndex()`, scans at most `len(backends)` positions
forward from `next` (wrapping via `% len(backends)`), and at the first
alive backend stores its index into `current` and returns it; otherwise
returns `nil` (here `none`). -/
def ServerPool.GetNextPeer (s : ServerPool) : Option Backend × ServerPool :=
  let p := s.NextIndex
  let s1 := p.2
  match findAliveIdx s1.backends p.1.toNat s1.backends.length with
  | some idx => (s1.backends[idx]?, { s1 with current := (idx : Int) })
  | none => (none, s1)

/-- Modelled from the spec: the dial outcome of
`isAlive(u) = (net.DialTimeout("tcp", u.Host, 2s) succeeds)` is a network
event, abstracted as an oracle on the backend's URL: `true` when the
probe connected within the timeout, `false` when it errored or timed out. -/
def isAlive (probe : String → Bool) (u : String) : Bool := probe u

/-- Source `func (s *ServerPool) HealthCheck()`: for every backend, in order, set
`Alive` to the probe result of its URL; nothing else is touched. -/
def ServerPool.HealthCheck (probe : String → Bool) (s : ServerPool) : ServerPool :=
  { s with backends := s.backends.map fun b => { b with alive := isAlive probe b.url } }

/-- Source `func GetAttemptsFromContext(r *http.Request) int`: the `ATTEMPTS`
context value when present, else 1.  The request context is modelled as
the optional stored value. -/
def GetAttemptsFromContext (ctx : Option Int) : Int := ctx.getD 1

/-- Observable outcome of one inbound request through `lb`. -/
inductive LbOutcome where
  /-- a backend's response was forwarded back to the caller -/
  | ok (b : Backend)
  /-- the branch `http.Error(w, "Service not available", http.StatusServiceUnavailable)` -/
  | unavailable
  /-- fuel exhausted in the model (never reached in the theorems) -/
  | stuck
deriving Repr, DecidableEq

/-- Source `func lb(w, r)` together with the per-backend `proxy.ErrorHandler`
closure from `main`.  `fail k` says whether the `k`-th forwarding attempt
(counted from 0 across the whole request) dies with a transport error.
Returns the outcome, the number of forwarding attempts actually made, and
the final pool.  Control flow mirrors the source:
attempts > 5 ⇒ 503; no peer ⇒ 503; peer forwards, and on a transport
error the error handler marks that peer's URL dead, re-reads the attempt
count, stores `attempts+1` in the context and re-enters `lb`. -/
def lbGo (fail : Nat → Bool) :
    Nat → Nat → ServerPool → Option Int → LbOutcome × Nat × ServerPool
  | 0, n, pool, _ => (.stuck, n, pool)
  | fuel + 1, n, pool, ctx =>
    let attempts := GetAttemptsFromContext ctx
    if attempts > 5 then
      (.unavailable, n, pool)
    else
      match pool.GetNextPeer with
      | (none, pool1) => (.unavailable, n, pool1)
      | (some peer, pool1) =>
        if fail n then
          lbGo fail fuel (n + 1) (pool1.MarkBackendStatus peer.url false)
            (some (attempts + 1))
        else
          (.ok peer, n + 1, pool1)

/-- The seeding loop of `main`: one token per backend address (split on
commas), appended in order, each with `Alive: true`; `current` starts at
its zero value.  No duplicate check of any kind is performed. -/
def seedPool (tokens : List String) : ServerPool :=
  { backends := tokens.map fun t => { url := t, alive := true }, current := 0 }

/-- Repeated sequential calls to `GetNextPeer` (no interleaved liveness
changes), collecting the returned peers in order. -/
def iterCalls : ServerPool → Nat → List (Option Backend)
  | _, 0 => []
  | s, n + 1 =>
    let p := s.GetNextPeer
    p.1 :: iterCalls p.2 n

/-! ### Micro-step model of `NextIndex` under concurrency

`NextIndex` performs three separately atomic accesses to `current`
(`len(backends)` is fixed):

1. `atomic.LoadInt32(&s.current)`  — read into a register;
2. `atomic.StoreInt32(&s.current, (r+1) % int32(len))` — write the value
   computed from the register;
3. `atomic.LoadInt32(&s.current)` — read back the returned index.

Go only guarantees each access individually atomic; the load/store pair is
not one read-modify-write.  A thread is its program counter, the register
holding the first load, and the eventually returned index. -/

structure NIThread where
  pc : Nat
  reg : Int
  res : Int
deriving Repr, DecidableEq

/-- One atomic step of one `NextIndex` caller on pool size `n`: the shared
cell `cur` is `s.current`; the result is the new cell value and thread. -/
def niStep (n : Nat) (cur : Int) (t : NIThread) : Int × NIThread :=
  match t.pc with
  | 0 => (cur, { t with reg := cur, pc := 1 })
  | 1 => (Int.tmod (t.reg + 1) (n : Int), { t with pc := 2 })
  | 2 => (cur, { t with res := cur, pc := 3 })
  | _ => (cur, t)

/-- Run two `NextIndex` callers A and B under a schedule: `true` steps A,
`false` steps B. -/
def niRun (n : Nat) : List Bool → Int → NIThread → NIThread → Int × NIThread × NIThread
  | [], cur, a, b => (cur, a, b)
  | tid :: rest, cur, a, b =>
    if tid then
      let p := niStep n cur a
      niRun n rest p.1 p.2 b
    else
      let p := niStep n cur b
      niRun n rest p.1 a p.2

/-! ### Supporting lemmas about the scan loop `findAliveIdx` -/

lemma findAliveIdx_some_spec (l : List Backend) :
    ∀ fuel start idx, findAliveIdx l start fuel = some idx →
      ∃ k, k < fuel ∧ idx = (start + k) % l.length ∧
        (∃ b, l[idx]? = some b ∧ b.alive = true) ∧
        ∀ j, j < k → ∃ c, l[(start + j) % l.length]? = some c ∧ c.alive = false := by
  intro fuel
  induction fuel with
  | zero => intro start idx h; simp [findAliveIdx] at h
  | succ fuel ih =>
    intro start idx h
    rw [findAliveIdx] at h
    by_cases hc : ((l[start % l.length]?.map Backend.alive).getD false) = true
    · rw [if_pos hc] at h
      obtain rfl : start % l.length = idx := by exact Option.some_injective _ h
      refine ⟨0, Nat.succ_pos _, by simp, ?_, by omega⟩
      cases hg : l[start % l.length]? with
      | none => rw [hg] at hc; simp at hc
      | some b => rw [hg] at hc; simp at hc; exact ⟨b, rfl, hc⟩
    · rw [if_neg hc] at h
      obtain ⟨k, hk, hidx, hal, hdead⟩ := ih (start + 1) idx h
      have hlpos : 0 < l.length := by
        obtain ⟨b, hb, _⟩ := hal
        have := List.getElem?_mem hb
        exact List.length_pos.mpr (by rintro rfl; simp at this)
      obtain ⟨c, hcg⟩ : ∃ c, l[start % l.length]? = some c := by
        have : start % l.length < l.length := Nat.mod_lt _ hlpos
        exact ⟨l.get ⟨start % l.length, this⟩, List.getElem?_eq_some.mpr ⟨this, rfl⟩⟩
      have hcdead : c.alive = false := by
        rw [hcg] at hc; simpa using hc
      refine ⟨k + 1, by omega, by rw [hidx]; ring_nf, hal, ?_⟩
      intro j hj
      cases j with
      | zero => exact ⟨c, by simpa using hcg, hcdead⟩
      | succ j' =>
        obtain ⟨d, hd, hdd⟩ := hdead j' (by omega)
        exact ⟨d, by rw [show start + (j' + 1) = start + 1 + j' by ring]; exact hd, hdd⟩

lemma findAliveIdx_none_spec (l : List Backend) :
    ∀ fuel start, findAliveIdx l start fuel = none →
      ∀ j, j < fuel →
        ((l[(start + j) % l.length]?).map Backend.alive).getD false = false := by
  intro fuel
  induction fuel with
  | zero => intro start _ j hj; omega
  | succ fuel ih =>
    intro start h j hj
    rw [findAliveIdx] at h
    by_cases hc : ((l[start % l.length]?.map Backend.alive).getD false) = true
    · rw [if_pos hc] at h; exact absurd h (by simp)
    · rw [if_neg hc] at h
      cases j with
      | zero => simpa using eq_false_of_ne_true hc
      | succ j' =>
        have := ih (start + 1) h j' (by omega)
        rwa [show start + 1 + j' = start + (j' + 1) by ring] at this

/-- Scanning `len` consecutive positions from any start covers every index. -/
lemma exists_scan_offset (len start m : Nat) (h : m < len) :
    ∃ j, j < len ∧ (start + j) % len = m := by
  have hlen : 0 < len := by omega
  have hr : start % len < len := Nat.mod_lt _ hlen
  by_cases hrm : start % len ≤ m
  · refine ⟨m - start % len, by omega, ?_⟩
    rw [Nat.add_mod, Nat.mod_eq_of_lt (by omega : m - start % len < len)]
    rw [show start % len + (m - start % len) = m by omega, Nat.mod_eq_of_lt h]
  · refine ⟨len + m - start % len, by omega, ?_⟩
    rw [Nat.add_mod, Nat.mod_eq_of_lt (by omega : len + m - start % len < len)]
    rw [show start % len + (len + m - start % len) = len + m by omega]
    rw [Nat.add_mod_left, Nat.mod_eq_of_lt h]

lemma findAliveIdx_isSome_of_alive (l : List Backend) (start : Nat) (b : Backend)
    (hb : b ∈ l) (hal : b.alive = true) :
    findAliveIdx l start l.length ≠ none := by
  intro hnone
  obtain ⟨m, hm⟩ := List.mem_iff_getElem?.mp hb
  have hmlt : m < l.length := (List.getElem?_eq_some.mp hm).1
  obtain ⟨j, hj, hjm⟩ := exists_scan_offset l.length start m hmlt
  have := findAliveIdx_none_spec l l.length start hnone j hj
  rw [hjm, hm] at this
  simp [hal] at this

/-! ### Supporting lemmas about the mark loop `markLoop` -/

lemma markLoop_eq_of_forall (addr : String) (v : Bool) :
    ∀ l : List Backend, (∀ b ∈ l, b.url = addr → b.alive = v) →
      markLoop addr v l = l := by
  intro l
  induction l with
  | nil => intro _; rfl
  | cons b rest ih =>
    intro h
    rw [markLoop, if_neg, ih fun c hc => h c (List.mem_cons_of_mem _ hc)]
    rintro ⟨h1, h2⟩
    exact h2 (h b (List.mem_cons_self _ _) h1)

lemma markLoop_idem (addr : String) (v : Bool) :
    ∀ l : List Backend, l.Pairwise (fun a b => a.url ≠ b.url) →
      markLoop addr v (markLoop addr v l) = markLoop addr v l := by
  intro l
  induction l with
  | nil => intro _; rfl
  | cons b rest ih =>
    intro hp
    rw [List.pairwise_cons] at hp
    by_cases hc : b.url = addr ∧ b.alive ≠ v
    · rw [markLoop, if_pos hc, markLoop, if_neg (by simp), markLoop_eq_of_forall]
      intro c hcr hcurl
      exact absurd (hcurl ▸ hc.1.symm ▸ rfl : b.url = c.url) (hp.1 c hcr)
    · rw [markLoop, if_neg hc, markLoop, if_neg hc, ih hp.2]

lemma markLoop_map_url (addr : String) (v : Bool) :
    ∀ l : List Backend, (markLoop addr v l).map Backend.url = l.map Backend.url := by
  intro l
  induction l with
  | nil => rfl
  | cons b rest ih =>
    rw [markLoop]
    by_cases hc : b.url = addr ∧ b.alive ≠ v
    · rw [if_pos hc]; simp
    · rw [if_neg hc]; simpa using ih

lemma markLoop_first_match_spec (addr : String) (v : Bool) :
    ∀ l : List Backend,
      markLoop addr v l = l ∨
      ∃ i b, l[i]? = some b ∧ b.url = addr ∧ b.alive ≠ v ∧
        markLoop addr v l = l.set i { b with alive := v } ∧
        ∀ j c, j < i → l[j]? = some c → ¬(c.url = addr ∧ c.alive ≠ v) := by
  intro l
  induction l with
  | nil => left; rfl
  | cons b rest ih =>
    by_cases hc : b.url = addr ∧ b.alive ≠ v
    · right
      exact ⟨0, b, by simp, hc.1, hc.2, by rw [markLoop, if_pos hc]; rfl, by omega⟩
    · rcases ih with heq | ⟨i, b', hget, hurl, hal, heq, hmin⟩
      · left; rw [markLoop, if_neg hc, heq]
      · right
        refine ⟨i + 1, b', by simpa using hget, hurl, hal, ?_, ?_⟩
        · rw [markLoop, if_neg hc, heq]; rfl
        · intro j c hj hjc
          cases j with
          | zero =>
            obtain rfl : b = c := by simpa using hjc
            exact hc
          | succ j' => exact hmin j' c (by omega) (by simpa using hjc)

/-! ### Unfolding helpers -/

lemma NextIndex_backends (s : ServerPool) : (s.NextIndex).2.backends = s.backends := by
  rw [ServerPool.NextIndex]
  split <;> rfl

lemma GetNextPeer_def (s : ServerPool) :
    s.GetNextPeer =
      match findAliveIdx s.backends (s.NextIndex).1.toNat s.backends.length with
      | some idx => (s.backends[idx]?, { s with current := (idx : Int) })
      | none => (none, (s.NextIndex).2) := by
  simp only [ServerPool.GetNextPeer, NextIndex_backends]



/-! ### C1 -/

/-- C1: `GetNextPeer` starts at the index returned by `NextIndex` and scans
forward at most `len(backends)` positions, wrapping modulo the length; it
returns the first backend whose `Alive` flag is true and sets the rotation
cursor to that backend's index; every backend it passes over is dead; if no
backend is alive it returns none, and it never returns a dead backend. -/
theorem getNextPeer_firstAlive_spec (s : ServerPool) :
    (∀ b, (s.GetNextPeer).1 = some b → b.alive = true) ∧
    ((∀ b ∈ s.backends, b.alive = false) → (s.GetNextPeer).1 = none) ∧
    ((∃ b ∈ s.backends, b.alive = true) → ∃ b, (s.GetNextPeer).1 = some b) ∧
    (∀ b, (s.GetNextPeer).1 = some b →
      ∃ k, k < s.backends.length ∧
        s.backends[((s.NextIndex).1.toNat + k) % s.backends.length]? = some b ∧
        (s.GetNextPeer).2.current =
          ((((s.NextIndex).1.toNat + k) % s.backends.length : Nat) : Int) ∧
        ∀ j, j < k →
          ∃ c, s.backends[((s.NextIndex).1.toNat + j) % s.backends.length]? = some c ∧
            c.alive = false) := by
  rw [GetNextPeer_def]
  cases h : findAliveIdx s.backends (s.NextIndex).1.toNat s.backends.length with
  | none =>
    refine ⟨by simp, fun _ => by simp, ?_, by simp⟩
    rintro ⟨b, hb, hal⟩
    exact absurd h (findAliveIdx_isSome_of_alive s.backends _ b hb hal)
  | some idx =>
    obtain ⟨k, hk, hidx, ⟨b0, hb0, hal0⟩, hdead⟩ :=
      findAliveIdx_some_spec s.backends s.backends.length (s.NextIndex).1.toNat idx h
    refine ⟨?_, ?_, ?_, ?_⟩
    · intro b hb
      simp only at hb
      rw [hb0] at hb
      obtain rfl : b0 = b := Option.some_injective _ hb
      exact hal0
    · intro hall
      exact absurd hal0 (by simp [hall b0 (List.getElem?_mem hb0)])
    · intro _
      exact ⟨b0, by simp [hb0]⟩
    · intro b hb
      simp only at hb
      refine ⟨k, hk, by rw [← hidx]; exact hb, by simp [hidx], hdead⟩

/-- Witness for C1 at a concrete pool: backend 0 dead, backend 1 alive,
cursor 0; the scan starts at index 1 and returns the alive backend there. -/
theorem getNextPeer_firstAlive_spec_witness :
    ∃ k, k < 2 ∧
      ({ backends := [{ url := "a", alive := false }, { url := "b", alive := true }],
         current := 0 } : ServerPool).backends[
            ((({ backends := [{ url := "a", alive := false },
                              { url := "b", alive := true }],
                 current := 0 } : ServerPool).NextIndex).1.toNat + k) % 2]?
        = some { url := "b", alive := true } ∧
      (({ backends := [{ url := "a", alive := false }, { url := "b", alive := true }],
          current := 0 } : ServerPool).GetNextPeer).2.current =
        ((((({ backends := [{ url := "a", alive := false },
                            { url := "b", alive := true }],
               current := 0 } : ServerPool).NextIndex).1.toNat + k) % 2 : Nat) : Int) ∧
      ∀ j, j < k →
        ∃ c, ({ backends := [{ url := "a", alive := false },
                             { url := "b", alive := true }],
                current := 0 } : ServerPool).backends[
                  ((({ backends := [{ url := "a", alive := false },
                                    { url := "b", alive := true }],
                       current := 0 } : ServerPool).NextIndex).1.toNat + j) % 2]?
            = some c ∧ c.alive = false :=
  (getNextPeer_firstAlive_spec
      { backends := [{ url := "a", alive := false }, { url := "b", alive := true }],
        current := 0 }).2.2.2
    { url := "b", alive := true } (by decide)

/-! ### C6 -/

/-- C6: after one `HealthCheck` pass every backend's `Alive` flag equals the
outcome of its reachability probe, and nothing else changes: the backend
list's length, order and URLs are untouched (position by position), and so
is the rotation cursor; backends are never added or removed. -/
theorem healthCheck_spec (probe : String → Bool) (s : ServerPool) :
    (s.HealthCheck probe).backends.length = s.backends.length ∧
    (∀ i : Nat, ((s.HealthCheck probe).backends[i]?).map Backend.url
        = (s.backends[i]?).map Backend.url) ∧
    (∀ i : Nat, ((s.HealthCheck probe).backends[i]?).map Backend.alive
        = (s.backends[i]?).map (fun b => isAlive probe b.url)) ∧
    (s.HealthCheck probe).current = s.current := by
  refine ⟨by simp [ServerPool.HealthCheck], ?_, ?_, rfl⟩
  · intro i
    simp only [ServerPool.HealthCheck, List.getElem?_map, Option.map_map]
    rfl
  · intro i
    simp only [ServerPool.HealthCheck, List.getElem?_map, Option.map_map]
    rfl

/-! ### C10 -/

/-- C10: `MarkBackendStatus` preserves the pool's length, backend order and
every backend's URL, and leaves the cursor alone; it modifies the `Alive`
flag of at most one backend, namely the first one whose URL equals the given
address and whose flag differs from the given value; if no backend carries
the given address the whole pool is unchanged (and nothing errors). -/
theorem markBackendStatus_frame (s : ServerPool) (addr : String) (v : Bool) :
    (s.MarkBackendStatus addr v).backends.length = s.backends.length ∧
    (s.MarkBackendStatus addr v).backends.map Backend.url
      = s.backends.map Backend.url ∧
    (s.MarkBackendStatus addr v).current = s.current ∧
    ((s.MarkBackendStatus addr v).backends = s.backends ∨
      ∃ i b, s.backends[i]? = some b ∧ b.url = addr ∧ b.alive ≠ v ∧
        (s.MarkBackendStatus addr v).backends
          = s.backends.set i { b with alive := v } ∧
        ∀ j c, j < i → s.backends[j]? = some c → ¬(c.url = addr ∧ c.alive ≠ v)) ∧
    ((∀ b ∈ s.backends, b.url ≠ addr) → s.MarkBackendStatus addr v = s) := by
  refine ⟨?_, markLoop_map_url addr v s.backends, rfl,
    markLoop_first_match_spec addr v s.backends, ?_⟩
  · have := congrArg List.length (markLoop_map_url addr v s.backends)
    simpa using this
  · intro h
    show { s with backends := markLoop addr v s.backends } = s
    rw [markLoop_eq_of_forall addr v s.backends fun b hb hurl => absurd hurl (h b hb)]

/-- Witness for C10: marking an address absent from the pool is a no-op. -/
theorem markBackendStatus_frame_witness :
    ServerPool.MarkBackendStatus
        { backends := [{ url := "a", alive := true }], current := 0 } "b" false
      = { backends := [{ url := "a", alive := true }], current := 0 } :=
  (markBackendStatus_frame
      { backends := [{ url := "a", alive := true }], current := 0 } "b" false).2.2.2.2
    (by decide)

/-! ### C4 -/

lemma getNextPeer_none_of_allDead (s : ServerPool)
    (h : ∀ b ∈ s.backends, b.alive = false) :
    s.GetNextPeer = (none, (s.NextIndex).2) := by
  rw [GetNextPeer_def]
  cases hf : findAliveIdx s.backends (s.NextIndex).1.toNat s.backends.length with
  | none => rfl
  | some idx =>
    obtain ⟨_, _, _, ⟨b0, hb0, hal0⟩, _⟩ :=
      findAliveIdx_some_spec s.backends s.backends.length (s.NextIndex).1.toNat idx hf
    exact absurd hal0 (by simp [h b0 (List.getElem?_mem hb0)])

/-- C4: when every backend is dead, `GetNextPeer` returns none, and the
request handler `lb` answers 503 (`unavailable`) without making a single
forwarding transport call (forward count 0), whatever the attempt context
and the transport behaviour. -/
theorem allDead_unavailable (fail : Nat → Bool) (fuel : Nat) (s : ServerPool)
    (ctx : Option Int) (hfuel : 0 < fuel)
    (h : ∀ b ∈ s.backends, b.alive = false) :
    (s.GetNextPeer).1 = none ∧
    (lbGo fail fuel 0 s ctx).1 = .unavailable ∧
    (lbGo fail fuel 0 s ctx).2.1 = 0 := by
  have hpeer := getNextPeer_none_of_allDead s h
  refine ⟨by rw [hpeer], ?_⟩
  cases fuel with
  | zero => omega
  | succ f =>
    simp only [lbGo]
    by_cases ha : GetAttemptsFromContext ctx > 5
    · rw [if_pos ha]; exact ⟨rfl, rfl⟩
    · rw [if_neg ha, hpeer]
      exact ⟨rfl, rfl⟩

/-- Witness for C4: a two-backend pool, both dead. -/
theorem allDead_unavailable_witness :
    ((({ backends := [{ url := "a", alive := false }, { url := "b", alive := false }],
         current := 0 } : ServerPool).GetNextPeer).1 = none) ∧
    (lbGo (fun _ => true) 1 0
        { backends := [{ url := "a", alive := false }, { url := "b", alive := false }],
          current := 0 } none).1 = .unavailable ∧
    (lbGo (fun _ => true) 1 0
        { backends := [{ url := "a", alive := false }, { url := "b", alive := false }],
          current := 0 } none).2.1 = 0 :=
  allDead_unavailable (fun _ => true) 1
    { backends := [{ url := "a", alive := false }, { url := "b", alive := false }],
      current := 0 } none (by decide) (by decide)

/-! ### C2 -/

lemma lbGo_allFail_spec (fail : Nat → Bool) (hf : ∀ k, fail k = true) :
    ∀ fuel n pool ctx, 1 ≤ GetAttemptsFromContext ctx →
      (lbGo fail fuel n pool ctx).2.1 ≤ n + (6 - GetAttemptsFromContext ctx).toNat ∧
      ((6 - GetAttemptsFromContext ctx).toNat < fuel →
        (lbGo fail fuel n pool ctx).1 = .unavailable) := by
  intro fuel
  induction fuel with
  | zero =>
    intro n pool ctx _
    exact ⟨by simp [lbGo], by omega⟩
  | succ fuel ih =>
    intro n pool ctx h1
    simp only [lbGo]
    by_cases ha : GetAttemptsFromContext ctx > 5
    · rw [if_pos ha]
      refine ⟨?_, fun _ => rfl⟩
      show n ≤ n + (6 - GetAttemptsFromContext ctx).toNat
      omega
    · rw [if_neg ha]
      rcases hp : pool.GetNextPeer with ⟨opt, pool1⟩
      cases opt with
      | none =>
        refine ⟨?_, fun _ => rfl⟩
        show n ≤ n + (6 - GetAttemptsFromContext ctx).toNat
        omega
      | some peer =>
        dsimp only
        rw [hf n, if_pos rfl]
        have h2 : (1 : Int) ≤ GetAttemptsFromContext (some (GetAttemptsFromContext ctx + 1)) := by
          show (1 : Int) ≤ GetAttemptsFromContext ctx + 1
          omega
        obtain ⟨hcount, hout⟩ :=
          ih (n + 1) (pool1.MarkBackendStatus peer.url false)
            (some (GetAttemptsFromContext ctx + 1)) h2
        have hG : GetAttemptsFromContext (some (GetAttemptsFromContext ctx + 1))
            = GetAttemptsFromContext ctx + 1 := rfl
        rw [hG] at hcount hout
        refine ⟨by omega, fun hlt => hout (by omega)⟩

/-- C2: the attempt budget is 5 total attempts including the first.  The
attempt counter starts at 1 when absent from the request context and is
incremented before each re-entry; when every forwarding attempt dies with a
transport error, `lb` answers 503 (`unavailable`) and never makes a 6th
forwarding attempt (forward count at most 5). -/
theorem attemptBudget_five (fail : Nat → Bool) (s : ServerPool) (fuel : Nat)
    (hf : ∀ k, fail k = true) (hfuel : 5 < fuel) :
    (lbGo fail fuel 0 s none).1 = .unavailable ∧
    (lbGo fail fuel 0 s none).2.1 ≤ 5 := by
  have h1 : (1 : Int) ≤ GetAttemptsFromContext none := by simp [GetAttemptsFromContext]
  obtain ⟨hcount, hout⟩ := lbGo_allFail_spec fail hf fuel 0 s none h1
  have hG : GetAttemptsFromContext (none : Option Int) = 1 := rfl
  rw [hG] at hcount hout
  exact ⟨hout (by omega), by simpa using hcount⟩

/-- Witness for C2: six distinct backends, all transport attempts fail;
exactly 5 forwarding attempts are made (checked by evaluation), then 503,
even though an alive backend remains. -/
theorem attemptBudget_five_witness :
    (lbGo (fun _ => true) 6 0 (seedPool ["a", "b", "c", "d", "e", "f"]) none).2.1 = 5 ∧
    ((lbGo (fun _ => true) 6 0 (seedPool ["a", "b", "c", "d", "e", "f"]) none).1
        = .unavailable ∧
      (lbGo (fun _ => true) 6 0 (seedPool ["a", "b", "c", "d", "e", "f"]) none).2.1 ≤ 5) :=
  ⟨by decide,
   attemptBudget_five (fun _ => true) (seedPool ["a", "b", "c", "d", "e", "f"]) 6
     (fun _ => rfl) (by omega)⟩

/-! ### C5 -/

/-- Counterexample to C5 as stated: with two backends sharing the address
"a" (a pool `main` happily builds from the startup list "a,a"), marking
"a" dead twice is NOT the same as marking it once — the loop's combined
match-and-differ condition skips the already-updated first copy and
updates the second copy on the second call. -/
theorem markBackendStatus_idem_cex :
    ServerPool.MarkBackendStatus
        (ServerPool.MarkBackendStatus (seedPool ["a", "a"]) "a" false) "a" false
      ≠ ServerPool.MarkBackendStatus (seedPool ["a", "a"]) "a" false := by
  decide

/-- C5 amended: on every pool whose backends carry pairwise-distinct
addresses (which is what startup produces from a duplicate-free backend
list), `MarkBackendStatus(addr, alive)` is idempotent; and whenever every
backend carrying the address already has the requested flag, the call
changes nothing at all (a no-op, not an error). -/
theorem markBackendStatus_idem (s : ServerPool) (addr : String) (v : Bool)
    (hd : s.backends.Pairwise fun a b => a.url ≠ b.url) :
    (s.MarkBackendStatus addr v).MarkBackendStatus addr v
      = s.MarkBackendStatus addr v ∧
    ((∀ b ∈ s.backends, b.url = addr → b.alive = v) →
      s.MarkBackendStatus addr v = s) := by
  constructor
  · show { s with backends := markLoop addr v (markLoop addr v s.backends) }
        = { s with backends := markLoop addr v s.backends }
    rw [markLoop_idem addr v s.backends hd]
  · intro h
    show { s with backends := markLoop addr v s.backends } = s
    rw [markLoop_eq_of_forall addr v s.backends h]

/-- Witness for the amended C5 on a duplicate-free two-backend pool. -/
theorem markBackendStatus_idem_witness :
    ((seedPool ["a", "b"]).MarkBackendStatus "a" false).MarkBackendStatus "a" false
      = (seedPool ["a", "b"]).MarkBackendStatus "a" false :=
  (markBackendStatus_idem (seedPool ["a", "b"]) "a" false (by decide)).1

/-! ### C8 -/

/-- Counterexample to C8 as stated: `main` performs no duplicate check when
seeding, so the startup list "a,a" yields two coexisting Backend Records
with the same address. -/
theorem seedPool_duplicate_cex :
    (seedPool ["a", "a"]).backends.map Backend.url = ["a", "a"] ∧
    ¬ (seedPool ["a", "a"]).backends.Pairwise (fun x y => x.url ≠ y.url) := by
  constructor
  · decide
  · intro h
    simp [seedPool, List.pairwise_map] at h

/-- C8 amended: startup seeding appends exactly one Backend Record per
startup token, in order and with no duplicate check, so the pool's address
sequence equals the startup list; records with distinct addresses are
guaranteed only when the startup list itself is duplicate-free. -/
theorem seedPool_addresses (tokens : List String) :
    (seedPool tokens).backends.map Backend.url = tokens ∧
    (tokens.Nodup →
      (seedPool tokens).backends.Pairwise fun x y => x.url ≠ y.url) := by
  constructor
  · induction tokens with
    | nil => rfl
    | cons t ts ih => simpa [seedPool] using ih
  · intro h
    simpa [seedPool, List.pairwise_map] using h

/-- Witness for the amended C8 on the duplicate-free startup list. -/
theorem seedPool_addresses_witness :
    (seedPool ["a", "b"]).backends.map Backend.url = ["a", "b"] ∧
    (seedPool ["a", "b"]).backends.Pairwise (fun x y => x.url ≠ y.url) :=
  ⟨(seedPool_addresses ["a", "b"]).1, (seedPool_addresses ["a", "b"]).2 (by decide)⟩

/-! ### C7 -/

lemma NextIndex_nonempty (s : ServerPool) (hne : s.backends ≠ []) :
    s.NextIndex =
      (Int.tmod (s.current + 1) (s.backends.length : Int),
       { s with current := Int.tmod (s.current + 1) (s.backends.length : Int) }) := by
  rw [ServerPool.NextIndex, if_neg fun h => hne (List.length_eq_zero.mp h)]

/-- C7: for a non-empty pool whose cursor lies in `[0, len(backends))`,
every pool operation keeps it there: `NextIndex` returns an in-range index
and stores an in-range cursor, `GetNextPeer` leaves an in-range cursor over
an unchanged backend list, and `MarkBackendStatus` and `HealthCheck` do not
touch the cursor or the list length at all; on an empty pool, `NextIndex`
returns the sentinel 0 and changes nothing (no fault). -/
theorem cursor_invariant (s : ServerPool) (probe : String → Bool)
    (addr : String) (v : Bool) (hne : s.backends ≠ [])
    (h0 : 0 ≤ s.current) (hlt : s.current < (s.backends.length : Int)) :
    (0 ≤ (s.NextIndex).1 ∧ (s.NextIndex).1 < (s.backends.length : Int) ∧
      0 ≤ (s.NextIndex).2.current ∧
      (s.NextIndex).2.current < ((s.NextIndex).2.backends.length : Int)) ∧
    ((s.GetNextPeer).2.backends = s.backends ∧
      0 ≤ (s.GetNextPeer).2.current ∧
      (s.GetNextPeer).2.current < ((s.GetNextPeer).2.backends.length : Int)) ∧
    ((s.MarkBackendStatus addr v).current = s.current ∧
      (s.MarkBackendStatus addr v).backends.length = s.backends.length) ∧
    ((s.HealthCheck probe).current = s.current ∧
      (s.HealthCheck probe).backends.length = s.backends.length) ∧
    (∀ t : ServerPool, t.backends = [] → t.NextIndex = (0, t)) := by
  have hpos : (0 : Int) < (s.backends.length : Int) := by
    have := List.length_pos.mpr hne
    exact_mod_cast this
  have htm0 : 0 ≤ Int.tmod (s.current + 1) (s.backends.length : Int) :=
    Int.tmod_nonneg _ (by omega)
  have html : Int.tmod (s.current + 1) (s.backends.length : Int)
      < (s.backends.length : Int) := Int.tmod_lt_of_pos _ hpos
  refine ⟨?_, ?_, ?_, ?_, ?_⟩
  · rw [NextIndex_nonempty s hne]
    exact ⟨htm0, html, htm0, html⟩
  · rw [GetNextPeer_def]
    cases h : findAliveIdx s.backends (s.NextIndex).1.toNat s.backends.length with
    | none =>
      rw [NextIndex_nonempty s hne]
      exact ⟨rfl, htm0, html⟩
    | some idx =>
      dsimp only
      obtain ⟨k, hk, hidx, ⟨b0, hb0, _⟩, _⟩ :=
        findAliveIdx_some_spec s.backends s.backends.length (s.NextIndex).1.toNat idx h
      have hidxlt : idx < s.backends.length := (List.getElem?_eq_some.mp hb0).1
      exact ⟨rfl, Int.ofNat_nonneg idx, by exact_mod_cast hidxlt⟩
  · exact ⟨rfl, by simpa using congrArg List.length (markLoop_map_url addr v s.backends)⟩
  · exact ⟨rfl, by simp [ServerPool.HealthCheck]⟩
  · intro t ht
    rw [ServerPool.NextIndex, if_pos (by simp [ht])]

/-- Witness for C7 at a concrete two-backend pool with cursor 0. -/
theorem cursor_invariant_witness :
    ((seedPool ["a", "b"]).GetNextPeer).2.backends = (seedPool ["a", "b"]).backends ∧
    0 ≤ ((seedPool ["a", "b"]).GetNextPeer).2.current ∧
    ((seedPool ["a", "b"]).GetNextPeer).2.current
      < (((seedPool ["a", "b"]).GetNextPeer).2.backends.length : Int) :=
  (cursor_invariant (seedPool ["a", "b"]) (fun _ => true) "a" false
    (by decide) (by decide) (by decide)).2.1

/-! ### C3 -/

lemma findAliveIdx_allAlive (l : List Backend) (hne : l ≠ [])
    (hall : ∀ b ∈ l, b.alive = true) (start : Nat) :
    ∀ fuel, 0 < fuel → findAliveIdx l start fuel = some (start % l.length) := by
  intro fuel hfuel
  cases fuel with
  | zero => omega
  | succ k =>
    have hpos : 0 < l.length := List.length_pos.mpr hne
    have hidx : start % l.length < l.length := Nat.mod_lt _ hpos
    obtain ⟨b, hb⟩ : ∃ b, l[start % l.length]? = some b :=
      ⟨l.get ⟨start % l.length, hidx⟩, List.getElem?_eq_some.mpr ⟨hidx, rfl⟩⟩
    simp only [findAliveIdx]
    rw [hb]
    simp [hall b (List.getElem?_mem hb)]

/-- One cursor step of the all-alive rotation, as integer arithmetic. -/
lemma tmod_cursor_step (c : Int) (n : Nat) (t : Nat) (h0 : 0 ≤ c) :
    Int.tmod (Int.tmod (c + 1) (n : Int) + 1 + (t : Int)) (n : Int)
      = Int.tmod (c + 1 + ((t : Int) + 1)) (n : Int) := by
  by_cases hn : n = 0
  · subst hn
    push_cast
    rw [Int.tmod_zero, Int.tmod_zero, Int.tmod_zero]
    ring
  · have hn0 : (0 : Int) ≤ (n : Int) := by positivity
    have hnne : (n : Int) ≠ 0 := by exact_mod_cast hn
    have e1 : Int.tmod (c + 1) (n : Int) = (c + 1) % (n : Int) :=
      Int.tmod_eq_emod (by omega) hn0
    have hge : 0 ≤ (c + 1) % (n : Int) := Int.emod_nonneg _ hnne
    have e2 : Int.tmod ((c + 1) % (n : Int) + 1 + (t : Int)) (n : Int)
        = ((c + 1) % (n : Int) + 1 + (t : Int)) % (n : Int) :=
      Int.tmod_eq_emod (by positivity) hn0
    have e3 : Int.tmod (c + 1 + ((t : Int) + 1)) (n : Int)
        = (c + 1 + ((t : Int) + 1)) % (n : Int) :=
      Int.tmod_eq_emod (by positivity) hn0
    rw [e1, e2, e3, add_assoc, Int.emod_add_emod]
    congr 1
    ring

/-- One `GetNextPeer` step when everything is alive: the cursor advances by
one modulo the pool size and the backend at the new cursor is returned. -/
lemma getNextPeer_allAlive (s : ServerPool) (hne : s.backends ≠ [])
    (h0 : 0 ≤ s.current) (hall : ∀ b ∈ s.backends, b.alive = true) :
    s.GetNextPeer =
      (s.backends[(Int.tmod (s.current + 1) (s.backends.length : Int)).toNat]?,
       { s with current := Int.tmod (s.current + 1) (s.backends.length : Int) }) := by
  have hpos : 0 < s.backends.length := List.length_pos.mpr hne
  have hposI : (0 : Int) < (s.backends.length : Int) := by exact_mod_cast hpos
  have htm0 : 0 ≤ Int.tmod (s.current + 1) (s.backends.length : Int) :=
    Int.tmod_nonneg _ (by omega)
  have html : Int.tmod (s.current + 1) (s.backends.length : Int)
      < (s.backends.length : Int) := Int.tmod_lt_of_pos _ hposI
  have hfst : (s.NextIndex).1 = Int.tmod (s.current + 1) (s.backends.length : Int) := by
    rw [NextIndex_nonempty s hne]
  have htlt : (Int.tmod (s.current + 1) (s.backends.length : Int)).toNat
      < s.backends.length := by omega
  rw [GetNextPeer_def, hfst,
    findAliveIdx_allAlive s.backends hne hall _ s.backends.length hpos,
    Nat.mod_eq_of_lt htlt]
  dsimp only
  rw [Int.toNat_of_nonneg htm0]

/-- The `t`-th of `n` sequential all-alive `GetNextPeer` calls returns the
backend at position `(current + 1 + t) mod len`. -/
lemma iterCalls_allAlive :
    ∀ (t : Nat) (s : ServerPool), s.backends ≠ [] → 0 ≤ s.current →
      (∀ b ∈ s.backends, b.alive = true) → ∀ n, t < n →
      (iterCalls s n)[t]? =
        some (s.backends[(Int.tmod (s.current + 1 + (t : Int))
          (s.backends.length : Int)).toNat]?) := by
  intro t
  induction t with
  | zero =>
    intro s hne h0 hall n hn
    cases n with
    | zero => omega
    | succ m =>
      rw [iterCalls]
      simp only [getNextPeer_allAlive s hne h0 hall, List.getElem?_cons_zero]
      norm_num
  | succ t ih =>
    intro s hne h0 hall n hn
    cases n with
    | zero => omega
    | succ m =>
      rw [iterCalls]
      simp only [getNextPeer_allAlive s hne h0 hall, List.getElem?_cons_succ]
      have h02 : 0 ≤ Int.tmod (s.current + 1) (s.backends.length : Int) :=
        Int.tmod_nonneg _ (by omega)
      have hstep := ih { s with current := Int.tmod (s.current + 1) (s.backends.length : Int) }
        hne h02 hall m (by omega)
      rw [hstep]
      show some _ = some _
      congr 2
      rw [tmod_cursor_step s.current s.backends.length t h0]
      norm_cast

/-- Every index of the pool is hit by one of `len` consecutive cursor
positions starting anywhere. -/
lemma exists_int_offset (len : Nat) (c : Int) (m : Nat) (h0 : 0 ≤ c) (hm : m < len) :
    ∃ t : Nat, t < len ∧ (Int.tmod (c + 1 + (t : Int)) (len : Int)).toNat = m := by
  have hl : (0 : Int) < (len : Int) := by exact_mod_cast (by omega : 0 < len)
  have hlne : (len : Int) ≠ 0 := by omega
  have h2 : 0 ≤ ((m : Int) - c - 1) % (len : Int) := Int.emod_nonneg _ hlne
  have h1 : ((m : Int) - c - 1) % (len : Int) < (len : Int) := Int.emod_lt_of_pos _ hl
  refine ⟨((((m : Int) - c - 1) % (len : Int))).toNat, by omega, ?_⟩
  have hcast : ((((((m : Int) - c - 1) % (len : Int))).toNat : Int))
      = (((m : Int) - c - 1) % (len : Int)) := Int.toNat_of_nonneg h2
  rw [Int.tmod_eq_emod (by omega) (by omega), hcast]
  have hmain : (c + 1 + ((m : Int) - c - 1) % (len : Int)) % (len : Int)
      = (m : Int) % (len : Int) := by
    conv_lhs => rw [Int.add_emod]
    rw [Int.emod_emod_of_dvd _ dvd_rfl, ← Int.add_emod]
    rw [show c + 1 + ((m : Int) - c - 1) = (m : Int) by ring]
  rw [hmain, Int.emod_eq_of_lt (by omega) (by exact_mod_cast hm)]
  omega

/-- C3: with every backend alive, `N+1` sequential `GetNextPeer` calls
(`N` the pool size, no interleaved liveness changes) return each backend
at least once among the first `N` calls, and the `(N+1)`-th call repeats
the very first call's result, which is a backend — round-robin cycling. -/
theorem roundRobin_cycle (s : ServerPool) (hne : s.backends ≠ [])
    (h0 : 0 ≤ s.current) (hall : ∀ b ∈ s.backends, b.alive = true) :
    (∀ b ∈ s.backends, ∃ t, t < s.backends.length ∧
        (iterCalls s (s.backends.length + 1))[t]? = some (some b)) ∧
    (∃ t, t < s.backends.length ∧
        (iterCalls s (s.backends.length + 1))[s.backends.length]?
          = (iterCalls s (s.backends.length + 1))[t]?) ∧
    (∃ b, (iterCalls s (s.backends.length + 1))[s.backends.length]?
          = some (some b)) := by
  have hpos : 0 < s.backends.length := List.length_pos.mpr hne
  have hposI : (0 : Int) < (s.backends.length : Int) := by exact_mod_cast hpos
  have hcycle : Int.tmod (s.current + 1 + ((s.backends.length : Nat) : Int))
        (s.backends.length : Int)
      = Int.tmod (s.current + 1 + ((0 : Nat) : Int)) (s.backends.length : Int) := by
    rw [Int.tmod_eq_emod (by omega) (by omega), Int.tmod_eq_emod (by omega) (by omega)]
    push_cast
    rw [show s.current + 1 + (s.backends.length : Int)
        = s.current + 1 + 0 + ((s.backends.length : Int)) * 1 by ring,
      Int.add_mul_emod_self_left]
  refine ⟨?_, ?_, ?_⟩
  · intro b hb
    obtain ⟨m, hmg⟩ := List.mem_iff_getElem?.mp hb
    have hmlt : m < s.backends.length := (List.getElem?_eq_some.mp hmg).1
    obtain ⟨t, ht, htm⟩ := exists_int_offset s.backends.length s.current m h0 hmlt
    refine ⟨t, ht, ?_⟩
    rw [iterCalls_allAlive t s hne h0 hall (s.backends.length + 1) (by omega), htm, hmg]
  · refine ⟨0, hpos, ?_⟩
    rw [iterCalls_allAlive s.backends.length s hne h0 hall (s.backends.length + 1)
        (by omega),
      iterCalls_allAlive 0 s hne h0 hall (s.backends.length + 1) (by omega), hcycle]
  · have htm0 : 0 ≤ Int.tmod (s.current + 1 + ((s.backends.length : Nat) : Int))
        (s.backends.length : Int) := Int.tmod_nonneg _ (by positivity)
    have html : Int.tmod (s.current + 1 + ((s.backends.length : Nat) : Int))
        (s.backends.length : Int) < (s.backends.length : Int) :=
      Int.tmod_lt_of_pos _ hposI
    have hlt : (Int.tmod (s.current + 1 + ((s.backends.length : Nat) : Int))
        (s.backends.length : Int)).toNat < s.backends.length := by omega
    refine ⟨s.backends.get ⟨(Int.tmod (s.current + 1 + ((s.backends.length : Nat) : Int))
        (s.backends.length : Int)).toNat, hlt⟩, ?_⟩
    rw [iterCalls_allAlive s.backends.length s hne h0 hall (s.backends.length + 1)
        (by omega)]
    rw [List.getElem?_eq_some.mpr ⟨hlt, rfl⟩]
    rfl

/-- Witness for C3 on a concrete all-alive two-backend pool. -/
theorem roundRobin_cycle_witness :
    ∃ t, t < (seedPool ["a", "b"]).backends.length ∧
      (iterCalls (seedPool ["a", "b"]) ((seedPool ["a", "b"]).backends.length + 1))[
          (seedPool ["a", "b"]).backends.length]?
        = (iterCalls (seedPool ["a", "b"])
            ((seedPool ["a", "b"]).backends.length + 1))[t]? :=
  (roundRobin_cycle (seedPool ["a", "b"]) (by decide) (by decide)
    (by decide)).2.1

/-! ### C9 -/

/-- Sanity check of the micro-step model: one caller running its three
atomic steps without interference computes exactly `NextIndex` — the same
stored cursor and the same returned index. -/
lemma niRun_sequential (s : ServerPool) (hne : s.backends ≠ []) :
    (niRun s.backends.length [true, true, true] s.current
        { pc := 0, reg := 0, res := 0 } { pc := 0, reg := 0, res := 0 }).1
      = (s.NextIndex).2.current ∧
    (niRun s.backends.length [true, true, true] s.current
        { pc := 0, reg := 0, res := 0 } { pc := 0, reg := 0, res := 0 }).2.1.res
      = (s.NextIndex).1 := by
  rw [NextIndex_nonempty s hne]
  simp [niRun, niStep]

/-- C9 fails on the code: `NextIndex`'s "atomic" increment is a separate
atomic load followed by an atomic store (no compare-and-swap), so two
concurrent callers on a pool of size 2 starting from cursor 0, interleaved
load A, load B, store A, store B, return A, return B, both complete
(program counter 3) and both observe the identical returned index 1 —
a duplicate hand-out within one rotation, contradicting both the claim and
the code's own comment "atomically increase the counter". -/
theorem nextIndex_race_duplicate :
    ((niRun 2 [true, false, true, false, true, false] 0
        { pc := 0, reg := 0, res := 0 } { pc := 0, reg := 0, res := 0 }).2.1.pc = 3) ∧
    ((niRun 2 [true, false, true, false, true, false] 0
        { pc := 0, reg := 0, res := 0 } { pc := 0, reg := 0, res := 0 }).2.2.pc = 3) ∧
    ((niRun 2 [true, false, true, false, true, false] 0
        { pc := 0, reg := 0, res := 0 } { pc := 0, reg := 0, res := 0 }).2.1.res = 1) ∧
    ((niRun 2 [true, false, true, false, true, false] 0
        { pc := 0, reg := 0, res := 0 } { pc := 0, reg := 0, res := 0 }).2.2.res = 1) := by
  decide
